import Mathlib

/-!
Shallow embedding of the turn decision engine in src/radish/algo_strategy.py.

The Engine (gamelib) is abstracted as a per-turn state snapshot: resource
balances, turn number, the path query, the attacker-count query, and the
configured attacker-turret (DESTRUCTOR) per-hit damage. The core only reads
these; placements are fire-and-forget, so a turn is modelled as a pure
function from the agent state and the snapshot to the new agent state plus
the ordered trace of engine calls (the PlacementPlan).

Resource balances are engine-reported non-negative numbers that may be
fractional, so they are modelled as rationals.

The post-turn event feed handler (on_action_frame) is modelled over a raw
frame value recording whether the events object and its breach list are
present and the raw entries of each breach; a Python KeyError or IndexError
is an error result, and since the exception leaves the object's earlier
mutations in place, the handler returns the partially mutated state next to
the error.
-/

namespace Radish

abbrev Location := Nat × Nat

/-- The six unit kinds bound from config at match start
(unitInformation indices 0..5). -/
inductive UnitKind where
  | FILTER
  | ENCRYPTOR
  | DESTRUCTOR
  | PING
  | EMP
  | SCRAMBLER
deriving DecidableEq

/-- A raw JSON value appearing in a breach event entry: either a board
location or a number. Only these two shapes occur in the breach lists the
tracker reads. -/
inductive JVal where
  | jloc : Location → JVal
  | jnum : Int → JVal
deriving DecidableEq

/-- The Engine state snapshot consumed during one turn: turn number, the
two resource balances (BITS = tempo, CORES = structure), the static
path-to-edge query, the enemy-attacker count per location (length of
get_attackers(loc, 0)), and the configured DESTRUCTOR damage (damage_i). -/
structure Engine where
  turn_number : Nat
  bits : Rat
  cores : Rat
  path : Location → List Location
  attackers : Location → Nat
  destructor_damage : Nat

/-- One engine call recorded in the turn plan: attempt_spawn with a unit
kind, location list and count, or attempt_upgrade with a location list. -/
inductive Call where
  | spawn (u : UnitKind) (locs : List Location) (count : Nat)
  | upgrade (locs : List Location)
deriving DecidableEq

/-- The agent process state: PRNG seed stored at construction, BreachLog
(scored_on_locations, holding the raw breach[0] values), the per-batch
took-damage flag, and the two rush flags. -/
structure AlgoState where
  seed : Nat
  scored_on_locations : List JVal
  got_damage : Bool
  RUSH : Bool
  RUSH_ATTEMPTED : Bool
deriving DecidableEq

/-- on_game_start: initial flag values (scored_on_locations = [],
got_damage = True, RUSH = True, RUSH_ATTEMPTED = False). -/
def on_game_start (seed : Nat) : AlgoState :=
  { seed := seed
    scored_on_locations := []
    got_damage := true
    RUSH := true
    RUSH_ATTEMPTED := false }

/-- Damage estimate of one candidate: the loop body of
least_damage_spawn_location, summing over the engine-reported path
(attacker count at the path location) times (DESTRUCTOR damage_i). -/
def pathDamage (e : Engine) (loc : Location) : Nat :=
  (e.path loc).foldl (fun acc p => acc + e.attackers p * e.destructor_damage) 0

/-- least_damage_spawn_location: build the damages list in input order,
then return location_options[damages.index(min(damages))]. Python's min
raises on an empty list, hence the Option result. -/
def least_damage_spawn_location (e : Engine) (location_options : List Location) :
    Option Location :=
  let damages := location_options.map (pathDamage e)
  match damages.min? with
  | none => none
  | some m => location_options.get? (damages.indexOf m)

/-- basic_filter_locations in build_defences. -/
def basic_filter_locations : List Location :=
  [(5, 11), (6, 11), (21, 11), (22, 11), (6, 9), (21, 9), (7, 8), (20, 8), (8, 7),
   (19, 7), (9, 6), (18, 6), (10, 5), (12, 5), (13, 5), (14, 5), (15, 5), (17, 5),
   (11, 4), (16, 4), (3, 11), (2, 12), (1, 13), (24, 11), (25, 12), (26, 13)]

/-- basic_destructor_locations in build_defences. -/
def basic_destructor_locations : List Location := [(5, 10), (22, 10)]

/-- encryptor_locations in build_defences (the energy-generator list). -/
def encryptor_locations : List Location :=
  [(13, 3), (14, 3), (13, 2), (14, 2), (13, 1), (14, 1), (13, 0), (14, 0), (12, 1),
   (15, 1), (12, 2), (15, 2)]

/-- secondary_destructor_locations in build_defences. -/
def secondary_destructor_locations : List Location :=
  [(27, 13), (0, 13), (21, 10), (6, 10), (26, 12), (25, 11), (1, 12), (24, 10),
   (2, 11), (3, 10), (20, 10), (20, 9)]

/-- The inline filter-upgrade list passed to the first attempt_upgrade call. -/
def core_upgrade_locations : List Location :=
  [(5, 11), (6, 11), (21, 11), (22, 11), (6, 9), (21, 9), (3, 11), (2, 12), (1, 13),
   (24, 11), (25, 12), (26, 13)]

/-- build_defences: the ordered trace of attempt_spawn and attempt_upgrade
calls it issues against the snapshot. get_resource(CORES) is the snapshot's
structure balance; the source queries it twice, both reads seeing the same
snapshot value here. -/
def build_defences (e : Engine) : List Call :=
  [Call.spawn UnitKind.DESTRUCTOR basic_destructor_locations 1,
   Call.spawn UnitKind.FILTER basic_filter_locations 1,
   Call.spawn UnitKind.ENCRYPTOR (encryptor_locations.take 1) 1,
   Call.spawn UnitKind.DESTRUCTOR (secondary_destructor_locations.take 7) 1]
  ++ (if e.cores ≥ 8 then
        (if e.turn_number < 10 then
          [Call.spawn UnitKind.ENCRYPTOR (encryptor_locations.take 7) 1]
         else
          [Call.spawn UnitKind.ENCRYPTOR encryptor_locations 1])
      else [])
  ++ [Call.spawn UnitKind.DESTRUCTOR secondary_destructor_locations 1,
      Call.upgrade core_upgrade_locations,
      Call.upgrade secondary_destructor_locations,
      Call.upgrade basic_destructor_locations]
  ++ (if e.cores ≥ 8 then [Call.upgrade encryptor_locations] else [])

/-- bit_increment computed each turn: turn_number // 10 + 5. -/
def bit_increment (t : Nat) : Nat := t / 10 + 5

/-- The two fixed rush candidate lanes ping_spawn_location_options. -/
def ping_spawn_location_options : List Location := [(11, 2), (16, 2)]

/-- The two scrambler placements issued when turn_number == 1 or
turn_number > 10. -/
def scrambleCalls (e : Engine) : List Call :=
  if e.turn_number = 1 ∨ e.turn_number > 10 then
    [Call.spawn UnitKind.SCRAMBLER [(6, 7)] 1, Call.spawn UnitKind.SCRAMBLER [(21, 7)] 1]
  else []

/-- starter_strategy: build defences, place scramblers on the scheduled
turns, and when get_resource(BITS) strictly exceeds bit_increment * 2
commit the count-1000 PING burst at the least-damage lane and set
RUSH_ATTEMPTED. Returns the new agent state and the turn's call trace.
The candidate list is non-empty so the Python min never raises; getD
supplies the unreachable default. -/
def starter_strategy (s : AlgoState) (e : Engine) : AlgoState × List Call :=
  let defCalls := build_defences e
  if e.bits > (bit_increment e.turn_number : Rat) * 2 then
    let best := (least_damage_spawn_location e ping_spawn_location_options).getD (11, 2)
    ({ s with RUSH_ATTEMPTED := true },
      defCalls ++ scrambleCalls e ++ [Call.spawn UnitKind.PING [best] 1000])
  else
    (s, defCalls ++ scrambleCalls e)

/-- A rush burst call: an attempt_spawn of PING with count 1000. -/
def isRushBurst : Call → Bool
  | Call.spawn u _ count => u == UnitKind.PING && count == 1000
  | Call.upgrade _ => false

/-- Whether a turn plan contains a rush burst placement. -/
def rushFired (plan : List Call) : Bool := plan.any isRushBurst

/-- A raw post-turn frame after JSON decoding: whether the events object is
present, whether it has a breach list, and the raw entries of each breach
event. -/
structure RawFrame where
  hasEvents : Bool
  hasBreach : Bool
  breaches : List (List JVal)
deriving DecidableEq

/-- The parse failures on_action_frame can hit: missing events object,
missing breach list, or a breach entry too short for an indexed field
(Python KeyError / IndexError). -/
inductive ParseErr where
  | missingEvents
  | missingBreach
  | missingField
deriving DecidableEq

/-- The for-loop of on_action_frame over the breach list: read breach[0]
(the location) and breach[4] (the owner flag); owner 1 sets got_damage,
any other owner appends the location to scored_on_locations. A missing
index aborts with the error and the mutations made so far, exactly as the
Python exception leaves the object. -/
def processBreaches : AlgoState → List (List JVal) → Option ParseErr × AlgoState
  | s, [] => (none, s)
  | s, breach :: rest =>
    match breach.get? 0 with
    | none => (some ParseErr.missingField, s)
    | some location =>
      match breach.get? 4 with
      | none => (some ParseErr.missingField, s)
      | some owner =>
        let unit_owner_self : Bool := owner == JVal.jnum 1
        let s1 := if unit_owner_self then { s with got_damage := true } else s
        let s2 :=
          if !unit_owner_self then
            { s1 with scored_on_locations := s1.scored_on_locations ++ [location] }
          else s1
        processBreaches s2 rest

/-- Owner-flag test of one well-formed breach entry: breach[4] == 1. -/
def breachOwnerSelf (breach : List JVal) : Bool :=
  breach.getD 4 (JVal.jnum 0) == JVal.jnum 1

/-- The location field of one well-formed breach entry: breach[0]. -/
def breachLoc (breach : List JVal) : JVal :=
  breach.getD 0 (JVal.jnum 0)

/-- on_action_frame: reset got_damage, process the breach list, then if
RUSH_ATTEMPTED and no damage was taken, clear RUSH. Missing events or
breach fields abort before any mutation; a malformed breach entry aborts
mid-loop with the mutations already made. -/
def on_action_frame (s : AlgoState) (f : RawFrame) : Option ParseErr × AlgoState :=
  if f.hasEvents = false then (some ParseErr.missingEvents, s)
  else if f.hasBreach = false then (some ParseErr.missingBreach, s)
  else
    match processBreaches { s with got_damage := false } f.breaches with
    | (some err, s2) => (some err, s2)
    | (none, s2) =>
      if s2.RUSH_ATTEMPTED && !s2.got_damage then (none, { s2 with RUSH := false })
      else (none, s2)

/-- A frame the handler rejects: events object missing, breach list
missing, or some breach entry lacking the indexed fields. -/
def malformedFrame (f : RawFrame) : Prop :=
  f.hasEvents = false ∨ f.hasBreach = false ∨ ∃ b ∈ f.breaches, b.length < 5

/-- A well-formed frame: both keys present and every breach entry long
enough for the indexed fields. -/
def wellFormedFrame (f : RawFrame) : Prop :=
  f.hasEvents = true ∧ f.hasBreach = true ∧ ∀ b ∈ f.breaches, 5 ≤ b.length

/-- One callback the engine makes into the agent after match start: a turn
(on_turn running starter_strategy against a snapshot) or an action frame. -/
inductive Step where
  | turn (e : Engine)
  | frame (f : RawFrame)

/-- Apply one engine callback to the agent state. -/
def applyStep (s : AlgoState) : Step → AlgoState
  | Step.turn e => (starter_strategy s e).1
  | Step.frame f => (on_action_frame s f).2

/-- Apply a sequence of engine callbacks in order. -/
def runSteps (s : AlgoState) (steps : List Step) : AlgoState :=
  steps.foldl applyStep s

/-- A concrete snapshot: turn 0, tempo balance 10 (exactly the threshold
2 * bit_increment 0), no enemy presence. -/
def engine_boundary_eq : Engine :=
  { turn_number := 0, bits := 10, cores := 0
    path := fun _ => [], attackers := fun _ => 0, destructor_damage := 0 }

/-- A concrete snapshot: turn 0, tempo balance 11 (threshold plus one). -/
def engine_boundary_above : Engine :=
  { turn_number := 0, bits := 11, cores := 0
    path := fun _ => [], attackers := fun _ => 0, destructor_damage := 0 }

/-- A concrete snapshot with tempo balance far above the threshold. -/
def engine_rich : Engine :=
  { turn_number := 0, bits := 100, cores := 0
    path := fun _ => [], attackers := fun _ => 0, destructor_damage := 0 }

/-- A concrete snapshot with zero tempo balance. -/
def engine_poor : Engine :=
  { turn_number := 0, bits := 0, cores := 0
    path := fun _ => [], attackers := fun _ => 0, destructor_damage := 0 }

/-- A concrete snapshot with structure balance 7, below the generator
threshold. -/
def engine_cores7 : Engine :=
  { turn_number := 3, bits := 0, cores := 7
    path := fun _ => [], attackers := fun _ => 0, destructor_damage := 0 }

/-- A concrete snapshot with structure balance 8, at the generator
threshold, before turn 10. -/
def engine_cores8 : Engine :=
  { turn_number := 3, bits := 0, cores := 8
    path := fun _ => [], attackers := fun _ => 0, destructor_damage := 0 }

/-- A concrete snapshot with structure balance 8 at turn 10. -/
def engine_cores8_late : Engine :=
  { turn_number := 10, bits := 0, cores := 8
    path := fun _ => [], attackers := fun _ => 0, destructor_damage := 0 }

/-- A concrete snapshot where lane (11, 2) is attacked and lane (16, 2)
is safe. -/
def engine_lanes : Engine :=
  { turn_number := 1, bits := 20, cores := 0
    path := fun l => [l]
    attackers := fun l => if l = (11, 2) then 3 else 0
    destructor_damage := 4 }

/-- An agent state with the rush already disarmed. -/
def state_disarmed : AlgoState :=
  { seed := 0, scored_on_locations := [], got_damage := true
    RUSH := false, RUSH_ATTEMPTED := false }

/-- An agent state with a rush attempt on record. -/
def state_attempted : AlgoState :=
  { seed := 0, scored_on_locations := [], got_damage := true
    RUSH := true, RUSH_ATTEMPTED := true }

/-- The breach batch of the spec's accounting example: (3, 4) owned by 1
(self), (10, 2) owned by 2 (opponent), padded to the real five-or-more
field entries. -/
def exampleFrame : RawFrame :=
  { hasEvents := true
    hasBreach := true
    breaches :=
      [[JVal.jloc (3, 4), JVal.jnum 0, JVal.jnum 0, JVal.jnum 0, JVal.jnum 1],
       [JVal.jloc (10, 2), JVal.jnum 0, JVal.jnum 0, JVal.jnum 0, JVal.jnum 2]] }

/-- A frame whose single breach entry lacks the owner-flag field. -/
def shortFrame : RawFrame :=
  { hasEvents := true, hasBreach := true, breaches := [[JVal.jloc (1, 1)]] }

/-- A well-formed frame with an empty breach list. -/
def emptyFrame : RawFrame :=
  { hasEvents := true, hasBreach := true, breaches := [] }

/-- Entries strictly before indexOf a are not equal to a. -/
lemma get_ne_of_lt_indexOf {l : List Nat} {a : Nat} :
    ∀ {j : Nat} (hj : j < l.length), j < l.indexOf a → l.get ⟨j, hj⟩ ≠ a := by
  induction l with
  | nil => intro j hj; simp at hj
  | cons x xs ih =>
    intro j hj hlt
    by_cases hx : x = a
    · rw [List.indexOf_cons_eq _ (by exact hx)] at hlt; omega
    · rw [List.indexOf_cons_ne _ (by exact hx)] at hlt
      cases j with
      | zero => simpa using hx
      | succ k =>
        have hk : k < xs.length := by simpa using hj
        simpa using ih hk (by omega)

/-- A count-1000 PING spawn is a rush burst. -/
lemma isRushBurst_burst (locs : List Location) :
    isRushBurst (Call.spawn UnitKind.PING locs 1000) = true := rfl

/-- The defensive trace contains no rush burst. -/
lemma build_defences_no_burst (e : Engine) :
    (build_defences e).any isRushBurst = false := by
  unfold build_defences
  split_ifs <;> decide

/-- The scrambler placements are not rush bursts. -/
lemma scrambleCalls_no_burst (e : Engine) :
    (scrambleCalls e).any isRushBurst = false := by
  unfold scrambleCalls
  split_ifs <;> decide

/-- starter_strategy above the threshold: burst appended, flag set. -/
lemma starter_strategy_pos (s : AlgoState) (e : Engine)
    (h : e.bits > (bit_increment e.turn_number : Rat) * 2) :
    starter_strategy s e =
      ({ s with RUSH_ATTEMPTED := true },
        build_defences e ++ scrambleCalls e ++
          [Call.spawn UnitKind.PING
            [(least_damage_spawn_location e ping_spawn_location_options).getD (11, 2)]
            1000]) := by
  simp only [starter_strategy]
  rw [if_pos h]

/-- starter_strategy at or below the threshold: no burst, state unchanged. -/
lemma starter_strategy_neg (s : AlgoState) (e : Engine)
    (h : ¬ e.bits > (bit_increment e.turn_number : Rat) * 2) :
    starter_strategy s e = (s, build_defences e ++ scrambleCalls e) := by
  simp only [starter_strategy]
  rw [if_neg h]

/-- On a well-formed breach list the loop never errors: got_damage is ored
with the owner-is-self test of each event and exactly the breach[0] values
of the other-owner events are appended in order. -/
lemma processBreaches_wf :
    ∀ (bs : List (List JVal)) (s : AlgoState), (∀ b ∈ bs, 5 ≤ b.length) →
      processBreaches s bs =
        (none,
          { s with
              got_damage := s.got_damage || bs.any breachOwnerSelf
              scored_on_locations := s.scored_on_locations ++
                (bs.filter (fun b => !breachOwnerSelf b)).map breachLoc }) := by
  intro bs
  induction bs with
  | nil =>
    intro s _
    simp [processBreaches]
  | cons b rest ih =>
    intro s h
    have hb : 5 ≤ b.length := h b (List.mem_cons_self b rest)
    have h0lt : 0 < b.length := by omega
    have h4lt : 4 < b.length := by omega
    have h0 : b.get? 0 = some (breachLoc b) := by
      simp [breachLoc, List.getElem?_eq_getElem h0lt]
    have h4 : b.get? 4 = some (b.getD 4 (JVal.jnum 0)) := by
      simp [List.getElem?_eq_getElem h4lt]
    have hrest : ∀ x ∈ rest, 5 ≤ x.length := fun x hx => h x (List.mem_cons_of_mem b hx)
    by_cases hself : breachOwnerSelf b
    · have hbeq : (b.getD 4 (JVal.jnum 0) == JVal.jnum 1) = true := hself
      simp only [processBreaches, h0, h4, hbeq, if_true, Bool.not_true, if_false]
      rw [ih _ hrest]
      simp [hself]
    · have hbeq : (b.getD 4 (JVal.jnum 0) == JVal.jnum 1) = false := by
        simpa [breachOwnerSelf] using hself
      simp only [processBreaches, h0, h4, hbeq, if_false, Bool.not_false, if_true]
      rw [ih _ hrest]
      simp [hself, List.append_assoc]

/-- A breach list with a too-short entry makes the loop abort with the
index error. -/
lemma processBreaches_err :
    ∀ (bs : List (List JVal)) (s : AlgoState), (∃ b ∈ bs, b.length < 5) →
      (processBreaches s bs).1 = some ParseErr.missingField := by
  intro bs
  induction bs with
  | nil =>
    intro s h
    simp at h
  | cons b rest ih =>
    intro s h
    by_cases hb : b.length < 5
    · cases h0 : b.get? 0 with
      | none => simp only [processBreaches, h0]
      | some v =>
        have h4 : b.get? 4 = none := by
          rw [List.get?_eq_getElem?]
          exact List.getElem?_eq_none (by omega)
        simp only [processBreaches, h0, h4]
    · obtain ⟨x, hx, hxlen⟩ := h
      have hxrest : x ∈ rest := by
        rcases List.mem_cons.mp hx with hxb | hxr
        · exact absurd (hxb ▸ hxlen) hb
        · exact hxr
      have h0 : b.get? 0 = some (breachLoc b) := by
        simp [breachLoc, List.getElem?_eq_getElem (show 0 < b.length by omega)]
      have h4 : b.get? 4 = some (b.getD 4 (JVal.jnum 0)) := by
        simp [List.getElem?_eq_getElem (show 4 < b.length by omega)]
      simp only [processBreaches, h0, h4]
      by_cases hself : (b.getD 4 (JVal.jnum 0) == JVal.jnum 1) = true
      · simp only [hself, if_true, Bool.not_true, if_false]
        exact ih _ ⟨x, hxrest, hxlen⟩
      · simp only [Bool.not_eq_true] at hself
        simp only [hself, if_false, Bool.not_false, if_true]
        exact ih _ ⟨x, hxrest, hxlen⟩

/-- The breach loop never touches the rush flags. -/
lemma processBreaches_preserves :
    ∀ (bs : List (List JVal)) (s : AlgoState),
      (processBreaches s bs).2.RUSH = s.RUSH ∧
      (processBreaches s bs).2.RUSH_ATTEMPTED = s.RUSH_ATTEMPTED := by
  intro bs
  induction bs with
  | nil =>
    intro s
    simp [processBreaches]
  | cons b rest ih =>
    intro s
    cases h0 : b.get? 0 with
    | none => simp only [processBreaches, h0]; exact ⟨trivial, trivial⟩
    | some v =>
      cases h4 : b.get? 4 with
      | none => simp only [processBreaches, h0, h4]; exact ⟨trivial, trivial⟩
      | some w =>
        by_cases hself : (w == JVal.jnum 1) = true
        · simp only [processBreaches, h0, h4, hself, if_true, Bool.not_true, if_false]
          simpa using ih { s with got_damage := true }
        · simp only [Bool.not_eq_true] at hself
          simp only [processBreaches, h0, h4, hself, if_false, Bool.not_false, if_true]
          simpa using ih
            { s with scored_on_locations := s.scored_on_locations ++ [v] }

/-- Claim C1: for every non-empty candidate list, least_damage_spawn_location
returns the candidate whose total estimated path damage is smallest, and on
ties the one occurring earlier in the input sequence (every strictly earlier
candidate has strictly larger damage). Determinism across repeated calls on
the same Engine snapshot is definitional here: the function is pure in the
snapshot and the candidate list. -/
theorem C1_least_damage_minimum (e : Engine) (opts : List Location) (h : opts ≠ []) :
    ∃ (i : Nat) (hi : i < opts.length),
      least_damage_spawn_location e opts = some (opts.get ⟨i, hi⟩) ∧
      (∀ (j : Nat) (hj : j < opts.length),
        pathDamage e (opts.get ⟨i, hi⟩) ≤ pathDamage e (opts.get ⟨j, hj⟩)) ∧
      (∀ (j : Nat) (hj : j < opts.length), j < i →
        pathDamage e (opts.get ⟨i, hi⟩) < pathDamage e (opts.get ⟨j, hj⟩)) := by
  set damages := opts.map (pathDamage e) with hdam
  have hne : damages ≠ [] := by simpa [hdam] using h
  obtain ⟨m, hm⟩ : ∃ m, damages.min? = some m := by
    cases hmin : damages.min? with
    | none => exact absurd (List.min?_eq_none_iff.mp hmin) hne
    | some m => exact ⟨m, rfl⟩
  obtain ⟨hmem, hle⟩ := List.min?_eq_some_iff'.mp hm
  have hi2 : damages.indexOf m < damages.length := List.indexOf_lt_length.mpr hmem
  have hi : damages.indexOf m < opts.length := by
    simpa [hdam] using hi2
  have hget : damages.get ⟨damages.indexOf m, hi2⟩ = m := List.indexOf_get hi2
  have hgetmap : ∀ (j : Nat) (hj : j < opts.length) (hj2 : j < damages.length),
      damages.get ⟨j, hj2⟩ = pathDamage e (opts.get ⟨j, hj⟩) := by
    intro j hj hj2
    simp [hdam]
  have hvi : pathDamage e (opts.get ⟨damages.indexOf m, hi⟩) = m := by
    rw [← hgetmap _ hi hi2, hget]
  refine ⟨damages.indexOf m, hi, ?_, ?_, ?_⟩
  · show least_damage_spawn_location e opts = _
    simp only [least_damage_spawn_location]
    rw [← hdam, hm]
    exact List.get?_eq_get hi
  · intro j hj
    have hj2 : j < damages.length := by simpa [hdam] using hj
    have := hle _ (List.get_mem damages j hj2)
    rw [hgetmap j hj hj2] at this
    rw [hvi]
    exact this
  · intro j hj hlt
    have hj2 : j < damages.length := by simpa [hdam] using hj
    have hne2 : damages.get ⟨j, hj2⟩ ≠ m := get_ne_of_lt_indexOf hj2 hlt
    have hge := hle _ (List.get_mem damages j hj2)
    rw [hgetmap j hj hj2] at hne2 hge
    rw [hvi]
    omega

/-- Witness for C1 at a concrete snapshot where lane (11, 2) is exposed,
so the second candidate (16, 2) is strictly cheaper and selected. -/
theorem C1_least_damage_minimum_witness :
    ∃ (i : Nat) (hi : i < ping_spawn_location_options.length),
      least_damage_spawn_location engine_lanes ping_spawn_location_options =
        some (ping_spawn_location_options.get ⟨i, hi⟩) ∧
      (∀ (j : Nat) (hj : j < ping_spawn_location_options.length),
        pathDamage engine_lanes (ping_spawn_location_options.get ⟨i, hi⟩) ≤
          pathDamage engine_lanes (ping_spawn_location_options.get ⟨j, hj⟩)) ∧
      (∀ (j : Nat) (hj : j < ping_spawn_location_options.length), j < i →
        pathDamage engine_lanes (ping_spawn_location_options.get ⟨i, hi⟩) <
          pathDamage engine_lanes (ping_spawn_location_options.get ⟨j, hj⟩)) :=
  C1_least_damage_minimum engine_lanes ping_spawn_location_options (by decide)

/-- Claim C2: on every turn the rush burst is attempted if and only if the
tempo balance strictly exceeds 2 * (turn_number / 10 + 5); at balance equal
to the threshold nothing fires, one above it fires, and a firing burst sets
RUSH_ATTEMPTED. -/
theorem C2_rush_threshold (s : AlgoState) (e : Engine) :
    (rushFired (starter_strategy s e).2 = true ↔
      e.bits > (bit_increment e.turn_number : Rat) * 2) ∧
    (rushFired (starter_strategy s e).2 = true →
      (starter_strategy s e).1.RUSH_ATTEMPTED = true) := by
  by_cases h : e.bits > (bit_increment e.turn_number : Rat) * 2
  · rw [starter_strategy_pos s e h]
    refine ⟨iff_of_true ?_ h, fun _ => rfl⟩
    simp [rushFired, List.any_append, isRushBurst_burst]
  · rw [starter_strategy_neg s e h]
    have hno : rushFired (build_defences e ++ scrambleCalls e) = false := by
      simp [rushFired, List.any_append, build_defences_no_burst, scrambleCalls_no_burst]
    constructor
    · rw [hno]
      simp [h]
    · intro hcontra
      rw [hno] at hcontra
      exact absurd hcontra (by simp)

/-- Witness for C2 at the exact boundary: turn 0, threshold 10; balance 10
does not fire, balance 11 fires and sets the flag. -/
theorem C2_rush_threshold_witness :
    rushFired (starter_strategy (on_game_start 0) engine_boundary_eq).2 = false ∧
    rushFired (starter_strategy (on_game_start 0) engine_boundary_above).2 = true ∧
    (starter_strategy (on_game_start 0) engine_boundary_above).1.RUSH_ATTEMPTED = true := by
  have h1 := (C2_rush_threshold (on_game_start 0) engine_boundary_eq).1
  have h2 := (C2_rush_threshold (on_game_start 0) engine_boundary_above).1
  have h3 := (C2_rush_threshold (on_game_start 0) engine_boundary_above).2
  have hfires : rushFired (starter_strategy (on_game_start 0) engine_boundary_above).2 = true :=
    h2.mpr (by norm_num [engine_boundary_above, bit_increment])
  refine ⟨?_, hfires, h3 hfires⟩
  have hnot : ¬ (engine_boundary_eq.bits >
      (bit_increment engine_boundary_eq.turn_number : Rat) * 2) := by
    norm_num [engine_boundary_eq, bit_increment]
  cases hb : rushFired (starter_strategy (on_game_start 0) engine_boundary_eq).2
  · rfl
  · exact absurd (h1.mp hb) hnot

/-- Claim C3 is refuted: the source never consults RUSH before committing
the burst, so with rush_active already false and a rich tempo balance the
burst is still committed. -/
theorem C3_counterexample :
    state_disarmed.RUSH = false ∧
    rushFired (starter_strategy state_disarmed engine_rich).2 = true := by
  refine ⟨rfl, ?_⟩
  rw [starter_strategy_pos _ _ (by norm_num [engine_rich, bit_increment])]
  simp [rushFired, List.any_append, isRushBurst_burst]

/-- Claim C3 amended: the per-turn rush decision ignores RushState
entirely; the committed plan is identical whatever the value of
rush_active, so DISARMED does not suppress the burst. -/
theorem C3_amended_rush_ignores_state (s : AlgoState) (e : Engine) (b : Bool) :
    (starter_strategy { s with RUSH := b } e).2 = (starter_strategy s e).2 := by
  by_cases h : e.bits > (bit_increment e.turn_number : Rat) * 2
  · rw [starter_strategy_pos _ _ h, starter_strategy_pos _ _ h]
  · rw [starter_strategy_neg _ _ h, starter_strategy_neg _ _ h]

/-- Claim C10: the whole turn plan is a deterministic function of the
Engine snapshot alone: any two agent states (in particular any two stored
PRNG seeds, and any flag values) yield the identical call trace, so the
seeded generator is never consulted by any decision. -/
theorem C10_plan_deterministic (s1 s2 : AlgoState) (e : Engine) :
    (starter_strategy s1 e).2 = (starter_strategy s2 e).2 := by
  by_cases h : e.bits > (bit_increment e.turn_number : Rat) * 2
  · rw [starter_strategy_pos _ _ h, starter_strategy_pos _ _ h]
  · rw [starter_strategy_neg _ _ h, starter_strategy_neg _ _ h]

/-- on_action_frame on a well-formed frame: no error, got_damage is
exactly the owner-is-self test over the batch, the other-owner locations
are appended, and RUSH is cleared exactly when RUSH_ATTEMPTED held and no
self-owned breach occurred. -/
lemma on_action_frame_wf (s : AlgoState) (f : RawFrame)
    (h1 : f.hasEvents = true) (h2 : f.hasBreach = true)
    (h3 : ∀ b ∈ f.breaches, 5 ≤ b.length) :
    on_action_frame s f =
      (none,
        if s.RUSH_ATTEMPTED && !(f.breaches.any breachOwnerSelf) then
          { s with
              got_damage := f.breaches.any breachOwnerSelf
              scored_on_locations := s.scored_on_locations ++
                (f.breaches.filter (fun b => !breachOwnerSelf b)).map breachLoc
              RUSH := false }
        else
          { s with
              got_damage := f.breaches.any breachOwnerSelf
              scored_on_locations := s.scored_on_locations ++
                (f.breaches.filter (fun b => !breachOwnerSelf b)).map breachLoc }) := by
  unfold on_action_frame
  rw [h1, h2]
  rw [if_neg (by simp), if_neg (by simp)]
  rw [processBreaches_wf f.breaches { s with got_damage := false } h3]
  simp only [Bool.false_or]
  split <;> rfl

/-- on_action_frame never changes RUSH_ATTEMPTED. -/
lemma on_action_frame_preserves_RA (s : AlgoState) (f : RawFrame) :
    (on_action_frame s f).2.RUSH_ATTEMPTED = s.RUSH_ATTEMPTED := by
  unfold on_action_frame
  by_cases h1 : f.hasEvents = false
  · rw [if_pos h1]
  · rw [if_neg h1]
    by_cases h2 : f.hasBreach = false
    · rw [if_pos h2]
    · rw [if_neg h2]
      have hpres := processBreaches_preserves f.breaches { s with got_damage := false }
      cases hp : processBreaches { s with got_damage := false } f.breaches with
      | mk err s2 =>
        rw [hp] at hpres
        cases err with
        | none =>
          simp only []
          split_ifs <;> exact hpres.2
        | some pe => exact hpres.2

/-- on_action_frame can only clear RUSH, never set it. -/
lemma on_action_frame_RUSH_mono (s : AlgoState) (f : RawFrame)
    (h : s.RUSH = false) : (on_action_frame s f).2.RUSH = false := by
  unfold on_action_frame
  by_cases h1 : f.hasEvents = false
  · rw [if_pos h1]; exact h
  · rw [if_neg h1]
    by_cases h2 : f.hasBreach = false
    · rw [if_pos h2]; exact h
    · rw [if_neg h2]
      have hpres := processBreaches_preserves f.breaches { s with got_damage := false }
      cases hp : processBreaches { s with got_damage := false } f.breaches with
      | mk err s2 =>
        rw [hp] at hpres
        have hs2 : s2.RUSH = false := by simpa [h] using hpres.1
        cases err with
        | none =>
          simp only []
          split_ifs
          · rfl
          · exact hs2
        | some pe => exact hs2

/-- starter_strategy never changes RUSH. -/
lemma starter_preserves_RUSH (s : AlgoState) (e : Engine) :
    (starter_strategy s e).1.RUSH = s.RUSH := by
  by_cases h : e.bits > (bit_increment e.turn_number : Rat) * 2
  · rw [starter_strategy_pos s e h]
  · rw [starter_strategy_neg s e h]

/-- starter_strategy never clears RUSH_ATTEMPTED. -/
lemma starter_RA_mono (s : AlgoState) (e : Engine)
    (h : s.RUSH_ATTEMPTED = true) : (starter_strategy s e).1.RUSH_ATTEMPTED = true := by
  by_cases hc : e.bits > (bit_increment e.turn_number : Rat) * 2
  · rw [starter_strategy_pos s e hc]
  · rw [starter_strategy_neg s e hc]; exact h

/-- RUSH_ATTEMPTED stays set across any sequence of engine callbacks. -/
lemma runSteps_RA_mono (s : AlgoState) (steps : List Step)
    (h : s.RUSH_ATTEMPTED = true) : (runSteps s steps).RUSH_ATTEMPTED = true := by
  induction steps generalizing s with
  | nil => simpa [runSteps] using h
  | cons st rest ih =>
    have hstep : (applyStep s st).RUSH_ATTEMPTED = true := by
      cases st with
      | turn e => exact starter_RA_mono s e h
      | frame f => rw [applyStep, on_action_frame_preserves_RA]; exact h
    simpa [runSteps, List.foldl_cons] using ih (applyStep s st) hstep

/-- Claim C4 is refuted: RUSH_ATTEMPTED is never reset per turn. After a
turn whose burst fired, a later turn whose balance is too low fires no
burst, yet its processing ends with the flag still true. -/
theorem C4_counterexample :
    rushFired (starter_strategy (on_game_start 0) engine_rich).2 = true ∧
    rushFired
      (starter_strategy ((starter_strategy (on_game_start 0) engine_rich).1) engine_poor).2 =
      false ∧
    ((starter_strategy ((starter_strategy (on_game_start 0) engine_rich).1) engine_poor).1).RUSH_ATTEMPTED =
      true := by
  have hpos : engine_rich.bits > (bit_increment engine_rich.turn_number : Rat) * 2 := by
    norm_num [engine_rich, bit_increment]
  have hneg : ¬ engine_poor.bits > (bit_increment engine_poor.turn_number : Rat) * 2 := by
    norm_num [engine_poor, bit_increment]
  rw [starter_strategy_pos _ _ hpos, starter_strategy_neg _ _ hneg]
  refine ⟨?_, ?_, rfl⟩
  · simp [rushFired, List.any_append, isRushBurst_burst]
  · simp [rushFired, List.any_append, build_defences_no_burst, scrambleCalls_no_burst]

/-- Claim C4 amended: RUSH_ATTEMPTED starts false at match start, is set
exactly when a turn's burst fires, and is never reset afterwards by either
turn processing or the event-batch handler: it records whether a burst has
been committed at any point so far in the match, not in the current turn. -/
theorem C4_amended_flag_latched :
    (∀ seed : Nat, (on_game_start seed).RUSH_ATTEMPTED = false) ∧
    (∀ (s : AlgoState) (e : Engine),
      (starter_strategy s e).1.RUSH_ATTEMPTED =
        (s.RUSH_ATTEMPTED || rushFired (starter_strategy s e).2)) ∧
    (∀ (s : AlgoState) (f : RawFrame),
      (on_action_frame s f).2.RUSH_ATTEMPTED = s.RUSH_ATTEMPTED) := by
  refine ⟨fun _ => rfl, ?_, on_action_frame_preserves_RA⟩
  intro s e
  by_cases h : e.bits > (bit_increment e.turn_number : Rat) * 2
  · rw [starter_strategy_pos s e h]
    simp [rushFired, List.any_append, isRushBurst_burst]
  · rw [starter_strategy_neg s e h]
    have hno : rushFired (build_defences e ++ scrambleCalls e) = false := by
      simp [rushFired, List.any_append, build_defences_no_burst, scrambleCalls_no_burst]
    rw [hno]
    simp

/-- Claim C5: DISARMED is terminal. Once RUSH is false, no sequence of
turns and event batches ever sets it true again. -/
theorem C5_disarm_terminal (s : AlgoState) (steps : List Step)
    (h : s.RUSH = false) : (runSteps s steps).RUSH = false := by
  induction steps generalizing s with
  | nil => simpa [runSteps] using h
  | cons st rest ih =>
    have hstep : (applyStep s st).RUSH = false := by
      cases st with
      | turn e => rw [applyStep, starter_preserves_RUSH]; exact h
      | frame f => exact on_action_frame_RUSH_mono s f h
    simpa [runSteps, List.foldl_cons] using ih (applyStep s st) hstep

/-- Witness for C5: a disarmed state stays disarmed across a rich turn
followed by an event batch. -/
theorem C5_disarm_terminal_witness :
    (runSteps state_disarmed [Step.turn engine_rich, Step.frame exampleFrame]).RUSH = false :=
  C5_disarm_terminal state_disarmed [Step.turn engine_rich, Step.frame exampleFrame] rfl

/-- Claim C6: on a well-formed breach batch the handler reports no error,
the took-damage flag ends true exactly when some event has owner flag 1 —
independently of its previous value, since it is reset before the loop —
and exactly the breach[0] locations of the events whose owner flag is not 1
are appended to the log, in order. -/
theorem C6_breach_accounting (s : AlgoState) (f : RawFrame)
    (h1 : f.hasEvents = true) (h2 : f.hasBreach = true)
    (h3 : ∀ b ∈ f.breaches, 5 ≤ b.length) :
    (on_action_frame s f).1 = none ∧
    (on_action_frame s f).2.got_damage = f.breaches.any breachOwnerSelf ∧
    (on_action_frame s f).2.scored_on_locations =
      s.scored_on_locations ++
        (f.breaches.filter (fun b => !breachOwnerSelf b)).map breachLoc := by
  rw [on_action_frame_wf s f h1 h2 h3]
  refine ⟨rfl, ?_, ?_⟩ <;> (split <;> rfl)

/-- Witness for C6 on the spec's example batch: (3, 4) owned by self,
(10, 2) owned by the opponent; the flag ends true and only (10, 2) is
appended. -/
theorem C6_breach_accounting_witness :
    (on_action_frame (on_game_start 0) exampleFrame).1 = none ∧
    (on_action_frame (on_game_start 0) exampleFrame).2.got_damage = true ∧
    (on_action_frame (on_game_start 0) exampleFrame).2.scored_on_locations =
      [JVal.jloc (10, 2)] := by
  have h := C6_breach_accounting (on_game_start 0) exampleFrame rfl rfl (by decide)
  refine ⟨h.1, ?_, ?_⟩
  · rw [h.2.1]; decide
  · rw [h.2.2]; decide

/-- Claim C8 is refuted on its atomicity half: a breach entry lacking the
owner-flag field aborts the handler with a parse error, but only after the
took-damage flag has already been reset to false. -/
theorem C8_counterexample :
    state_attempted.got_damage = true ∧
    (on_action_frame state_attempted shortFrame).1 = some ParseErr.missingField ∧
    (on_action_frame state_attempted shortFrame).2.got_damage = false :=
  ⟨rfl, rfl, rfl⟩

/-- Claim C8 amended: a malformed batch (missing events object, missing
breach list, or a breach entry lacking its indexed fields) always aborts
with a parse error and never touches the rush flags; when the events or
breach key is missing the whole state is untouched, but a malformed breach
entry aborts only after the took-damage flag was reset and earlier events
were logged. -/
theorem C8_amended_fail_fast (s : AlgoState) (f : RawFrame)
    (h : malformedFrame f) :
    (on_action_frame s f).1 ≠ none ∧
    (on_action_frame s f).2.RUSH = s.RUSH ∧
    (on_action_frame s f).2.RUSH_ATTEMPTED = s.RUSH_ATTEMPTED ∧
    (f.hasEvents = false ∨ f.hasBreach = false → (on_action_frame s f).2 = s) := by
  by_cases h1 : f.hasEvents = false
  · unfold on_action_frame
    rw [if_pos h1]
    exact ⟨by simp, rfl, rfl, fun _ => rfl⟩
  · by_cases h2 : f.hasBreach = false
    · unfold on_action_frame
      rw [if_neg h1, if_pos h2]
      exact ⟨by simp, rfl, rfl, fun _ => rfl⟩
    · have h3 : ∃ b ∈ f.breaches, b.length < 5 := by
        rcases h with h | h | h
        · exact absurd h h1
        · exact absurd h h2
        · exact h
      have herr := processBreaches_err f.breaches { s with got_damage := false } h3
      have hpres := processBreaches_preserves f.breaches { s with got_damage := false }
      unfold on_action_frame
      rw [if_neg h1, if_neg h2]
      cases hp : processBreaches { s with got_damage := false } f.breaches with
      | mk err s2 =>
        rw [hp] at herr hpres
        cases err with
        | none => simp at herr
        | some pe =>
          refine ⟨by simp, by simpa using hpres.1, by simpa using hpres.2, ?_⟩
          intro hor
          rcases hor with hor | hor
          · exact absurd hor h1
          · exact absurd hor h2

/-- Witness for C8 amended at the short-entry frame. -/
theorem C8_amended_fail_fast_witness :
    (on_action_frame state_attempted shortFrame).1 ≠ none ∧
    (on_action_frame state_attempted shortFrame).2.RUSH = state_attempted.RUSH ∧
    (on_action_frame state_attempted shortFrame).2.RUSH_ATTEMPTED =
      state_attempted.RUSH_ATTEMPTED ∧
    (shortFrame.hasEvents = false ∨ shortFrame.hasBreach = false →
      (on_action_frame state_attempted shortFrame).2 = state_attempted) :=
  C8_amended_fail_fast state_attempted shortFrame
    (by
      unfold malformedFrame
      exact Or.inr (Or.inr ⟨[JVal.jloc (1, 1)], by decide, by decide⟩))

/-- Claim C9: once a rush attempt is on record, any later well-formed
event batch with no owner-1 breach — an empty breach list included — sets
RUSH to false, no matter how many turns or batches passed in between,
because RUSH_ATTEMPTED stays set once set. -/
theorem C9_disarm_after_attempt (s : AlgoState) (steps : List Step) (f : RawFrame)
    (hra : s.RUSH_ATTEMPTED = true)
    (h1 : f.hasEvents = true) (h2 : f.hasBreach = true)
    (h3 : ∀ b ∈ f.breaches, 5 ≤ b.length)
    (hno : ∀ b ∈ f.breaches, breachOwnerSelf b = false) :
    (on_action_frame (runSteps s steps) f).2.RUSH = false := by
  have hra1 : (runSteps s steps).RUSH_ATTEMPTED = true := runSteps_RA_mono s steps hra
  rw [on_action_frame_wf (runSteps s steps) f h1 h2 h3]
  have hany : f.breaches.any breachOwnerSelf = false := by
    rw [List.any_eq_false]
    intro b hb
    simp [hno b hb]
  simp [hra1, hany]

/-- Witness for C9: after one poor turn, the empty batch disarms a state
with a rush attempt on record. -/
theorem C9_disarm_after_attempt_witness :
    (on_action_frame (runSteps state_attempted [Step.turn engine_poor]) emptyFrame).2.RUSH =
      false :=
  C9_disarm_after_attempt state_attempted [Step.turn engine_poor] emptyFrame rfl rfl rfl
    (by decide) (by decide)

/-- Claim C7: the larger generator tranche and the generator upgrades are
gated on the structure balance: at 7 or below neither the 7-location short
list, the full list, nor the generator upgrade call appears in the trace;
at 8 or above the short list is placed before turn 10, the full list from
turn 10 on, and the full-list upgrade call is issued. -/
theorem C7_generator_gate (e : Engine) :
    (e.cores ≤ 7 →
      Call.spawn UnitKind.ENCRYPTOR (encryptor_locations.take 7) 1 ∉ build_defences e ∧
      Call.spawn UnitKind.ENCRYPTOR encryptor_locations 1 ∉ build_defences e ∧
      Call.upgrade encryptor_locations ∉ build_defences e) ∧
    (8 ≤ e.cores →
      (e.turn_number < 10 →
        Call.spawn UnitKind.ENCRYPTOR (encryptor_locations.take 7) 1 ∈ build_defences e) ∧
      (10 ≤ e.turn_number →
        Call.spawn UnitKind.ENCRYPTOR encryptor_locations 1 ∈ build_defences e) ∧
      Call.upgrade encryptor_locations ∈ build_defences e) := by
  constructor
  · intro h
    have hc : ¬ e.cores ≥ 8 := by
      intro hge
      have : (7 : Rat) < 8 := by norm_num
      linarith
    unfold build_defences
    rw [if_neg hc, if_neg hc]
    refine ⟨?_, ?_, ?_⟩ <;> decide
  · intro h
    have hc : e.cores ≥ 8 := h
    unfold build_defences
    rw [if_pos hc, if_pos hc]
    by_cases ht : e.turn_number < 10
    · rw [if_pos ht]
      exact ⟨fun _ => by decide, fun h10 => absurd h10 (by omega), by decide⟩
    · rw [if_neg ht]
      exact ⟨fun hlt => absurd hlt ht, fun _ => by decide, by decide⟩

/-- Witness for C7 at balances 7 and 8, before and at turn 10. -/
theorem C7_generator_gate_witness :
    Call.upgrade encryptor_locations ∉ build_defences engine_cores7 ∧
    Call.spawn UnitKind.ENCRYPTOR (encryptor_locations.take 7) 1 ∈ build_defences engine_cores8 ∧
    Call.spawn UnitKind.ENCRYPTOR encryptor_locations 1 ∈ build_defences engine_cores8_late ∧
    Call.upgrade encryptor_locations ∈ build_defences engine_cores8 :=
  ⟨((C7_generator_gate engine_cores7).1 (by norm_num [engine_cores7])).2.2,
   ((C7_generator_gate engine_cores8).2 (by norm_num [engine_cores8])).1 (by norm_num [engine_cores8]),
   ((C7_generator_gate engine_cores8_late).2 (by norm_num [engine_cores8_late])).2.1
     (by norm_num [engine_cores8_late]),
   ((C7_generator_gate engine_cores8).2 (by norm_num [engine_cores8])).2.2⟩

end Radish
